import Mathlib

/-!
Verification of the snapshot comparison and change-report engine of
unraid-config-guardian (`src/config_diff.py`) against its specification.

The Python module is shallowly embedded: each definition below mirrors one
Python function or data shape.  Python dictionaries holding optional keys
become structures with `Option` fields, and every `dict.get(key, default)`
becomes `Option.getD`.  Python `set` objects have an unspecified,
hash-dependent iteration order; everywhere the source iterates a set (the
`for name in new_names - old_names` loops and the `", ".join(set_diff)`
calls) the embedding takes an explicit enumeration function
`E : List String → List String` that turns the canonical element list of a
set into the order the runtime happens to produce.  `Admissible E` states
exactly what any real run guarantees — the enumeration is duplicate free
and enumerates precisely the elements — and nothing more: CPython's set
iteration order varies with the per-process hash salt and, under hash-table
collisions, with insertion order, so no assumption is made that the order
is reproducible across runs or depends only on the element set.  Where a
theorem needs the latter idealization it carries it as an explicit, clearly
visible hypothesis.
-/

namespace ConfigDiff

/-- One container record, as built by `get_containers` in
`unraid_config_guardian.py` and consumed by `config_diff.py`.
Optional fields model dictionary keys that may be absent; `ports` and
`volumes` are lists of opaque strings; `environment` models the
items of the environment dictionary. -/
structure Container where
  name : Option String
  image : Option String
  status : Option String
  restart_policy : Option String
  ports : List String
  volumes : List String
  environment : List (String × String)
deriving DecidableEq

/-- The `system_info` dictionary consumed by `compare_system_info`. -/
structure SystemInfo where
  unraid_version : Option String
  hostname : Option String
  kernel_version : Option String
  timestamp : Option String
  disks : List String
  shares : List String
deriving DecidableEq

/-- A parsed configuration document (`unraid-config.json`).  The two keys
the diff engine consults are modelled as optional fields; `hasOtherEntries`
records whether the document carries any further keys, which matters only
for the Python truthiness test `if not old_config` in `create_change_log`. -/
structure Config where
  containers : Option (List Container)
  system_info : Option SystemInfo
  hasOtherEntries : Bool
deriving DecidableEq

/-- A system-info dictionary with every key absent, modelling `{}`. -/
def emptySystem : SystemInfo := ⟨none, none, none, none, [], []⟩

/-- A container dictionary with every key absent, modelling `{}`. -/
def emptyContainer : Container := ⟨none, none, none, none, [], [], []⟩

/-- Models `config.get("containers", [])`. -/
def containersOf (c : Config) : List Container := c.containers.getD []

/-- Models `config.get("system_info", {})`. -/
def sysOf (c : Config) : SystemInfo := c.system_info.getD emptySystem

/-- Python truthiness of the parsed configuration dictionary: an empty
dictionary is falsy. -/
def configTruthy (c : Config) : Bool :=
  c.containers.isSome || c.system_info.isSome || c.hasOtherEntries

/-- Models `c.get("name", "unknown")`, the identity key used by
`compare_containers`. -/
def keyOf (c : Container) : String := c.name.getD "unknown"

/-- Models lookup in the dictionary comprehension
`\x7bc.get("name", "unknown"): c for c in containers\x7d`: entries are inserted
in list order and a later entry overwrites an earlier one with the same key,
so the lookup returns the last record carrying the key. -/
def buildByName (cs : List Container) (n : String) : Option Container :=
  cs.foldl (fun acc c => if keyOf c = n then some c else acc) none

/-- Models `by_name[name].get("image", "unknown")` for a name known to be a
key of the dictionary (the `none` branch is unreachable under that guard). -/
def imageAt (cs : List Container) (n : String) : String :=
  match buildByName cs n with
  | some c => c.image.getD "unknown"
  | none => "unknown"

/-- Lookup for a name known to be present on both sides (`old_by_name[name]`);
the default is unreachable under that guard. -/
def lookupOr (cs : List Container) (n : String) : Container :=
  (buildByName cs n).getD emptyContainer

/-- Equality of the element sets of two lists, modelling Python `set`
equality. -/
def sameSet (xs ys : List String) : Bool :=
  xs.all (fun x => decide (x ∈ ys)) && ys.all (fun y => decide (y ∈ xs))

/-- What every CPython run guarantees about its set-iteration order, and
nothing more: the enumeration of a set is duplicate free and enumerates
exactly the elements.  The order itself is unspecified — it varies with the
per-process hash salt and, under hash-table collisions, with insertion
order — so no clause requires it to be reproducible or to depend only on
the element set. -/
def Admissible (E : List String → List String) : Prop :=
  (∀ xs, (E xs).Nodup) ∧
  (∀ xs a, a ∈ E xs ↔ a ∈ xs)

/-- The idealization that a run's set-iteration order is a function of the
element set alone.  This holds within a single interpreter process in the
absence of hash-table collision effects, but is not guaranteed by CPython
(hash salts differ across processes and insertion order can matter), so it
is never assumed globally; theorems that need it take it as an explicit
hypothesis. -/
def OrderExtensional (E : List String → List String) : Prop :=
  ∀ xs ys, (∀ a, a ∈ xs ↔ a ∈ ys) → E xs = E ys

/-- Boolean lexicographic comparison of character lists, used to build a
concrete, executable total order on strings. -/
def lexLe : List Char → List Char → Bool
  | [], _ => true
  | _ :: _, [] => false
  | a :: as, b :: bs =>
    if a < b then true else if b < a then false else lexLe as bs

/-- Boolean lexicographic comparison of strings. -/
def strLeb (a b : String) : Bool := lexLe a.data b.data

/-- One admissible enumeration: ascending lexicographic order of the
distinct elements. -/
def sortedEnum (xs : List String) : List String :=
  xs.dedup.insertionSort (fun a b => strLeb a b = true)

/-- Another admissible enumeration: descending lexicographic order of the
distinct elements. -/
def revEnum (xs : List String) : List String :=
  (sortedEnum xs).reverse

/-- An admissible enumeration that follows the order in which the elements
were presented (first occurrences dropped in favour of later ones, as the
canonical element lists are built).  It models an iteration order that is
sensitive to insertion order, which CPython exhibits under hash-table
collisions; it is admissible but not a function of the element set alone. -/
def presentedEnum (xs : List String) : List String := xs.dedup

/-- The `fields_to_compare` list of `compare_single_container`, paired with
the display names used in the emitted change lines. -/
def fieldsToCompare : List ((Container → Option String) × String) :=
  [(Container.image, "Image"), (Container.status, "Status"),
   (Container.restart_policy, "Restart Policy")]

/-- Models `len(c.get("environment", \x7b\x7d))`: the number of distinct keys of
the environment dictionary. -/
def envCount (c : Container) : Nat :=
  ((c.environment.map Prod.fst).dedup).length

/-- Embedding of `compare_single_container`: the ordered list of change
descriptions for one container present in both snapshots.  `E` supplies the
iteration order of the port/volume set differences inside `", ".join`. -/
def compare_single_container (E : List String → List String)
    (old new : Container) : List String :=
  let fieldChanges := fieldsToCompare.foldl (fun acc p =>
    let ov := (p.1 old).getD "N/A"
    let nv := (p.1 new).getD "N/A"
    let d := p.2
    if ov ≠ nv then acc ++ [s!"{d}: {ov} → {nv}"] else acc) []
  let oldPorts := old.ports.dedup
  let newPorts := new.ports.dedup
  let portChanges :=
    if sameSet oldPorts newPorts then [] else
      let removedP := oldPorts.filter (fun p => decide (¬ p ∈ newPorts))
      let addedP := newPorts.filter (fun p => decide (¬ p ∈ oldPorts))
      (if removedP.isEmpty then [] else
        let j := String.intercalate ", " (E removedP)
        [s!"Removed ports: {j}"]) ++
      (if addedP.isEmpty then [] else
        let j := String.intercalate ", " (E addedP)
        [s!"Added ports: {j}"])
  let oldVols := old.volumes.dedup
  let newVols := new.volumes.dedup
  let volChanges :=
    if sameSet oldVols newVols then [] else
      let removedV := oldVols.filter (fun v => decide (¬ v ∈ newVols))
      let addedV := newVols.filter (fun v => decide (¬ v ∈ oldVols))
      (if removedV.isEmpty then [] else
        let j := String.intercalate ", " (E removedV)
        [s!"Removed volumes: {j}"]) ++
      (if addedV.isEmpty then [] else
        let j := String.intercalate ", " (E addedV)
        [s!"Added volumes: {j}"])
  let oc := envCount old
  let nc := envCount new
  let envChanges :=
    if oc ≠ nc then [s!"Environment variables: {oc} → {nc}"] else []
  fieldChanges ++ portChanges ++ volChanges ++ envChanges

/-- The result dictionary of `compare_containers`: three lists of already
formatted report lines. -/
structure ContainerChanges where
  added : List String
  removed : List String
  modified : List String
deriving DecidableEq

/-- The key multiset of a container list. -/
def keysOf (cs : List Container) : List String := cs.map keyOf

/-- Canonical element list of the set `new_names - old_names`. -/
def addedKeyElems (old new : List Container) : List String :=
  (keysOf new).dedup.filter (fun n => decide (¬ n ∈ keysOf old))

/-- Canonical element list of the set `old_names - new_names`. -/
def removedKeyElems (old new : List Container) : List String :=
  (keysOf old).dedup.filter (fun n => decide (¬ n ∈ keysOf new))

/-- Canonical element list of the set `old_names & new_names`. -/
def sharedKeyElems (old new : List Container) : List String :=
  (keysOf old).dedup.filter (fun n => decide (n ∈ keysOf new))

/-- The body of the `for name in old_names & new_names` loop of
`compare_containers`: extend the accumulated modified lines with the header
and indented change lines of one shared name, when it has changes. -/
def modifiedStep (E : List String → List String) (old new : List Container)
    (acc : List String) (n : String) : List String :=
  let cc := compare_single_container E (lookupOr old n) (lookupOr new n)
  if cc.isEmpty then acc
  else acc ++ [s!"~ {n}:"] ++ cc.map (fun s => "    " ++ s)

/-- Embedding of `compare_containers`.  The three `for name in ...` loops of
the source iterate over Python sets; `E` supplies their iteration order. -/
def compare_containers (E : List String → List String)
    (old new : List Container) : ContainerChanges :=
  let addedNames := E (addedKeyElems old new)
  let removedNames := E (removedKeyElems old new)
  let sharedNames := E (sharedKeyElems old new)
  let added := addedNames.map (fun n =>
    let img := imageAt new n
    s!"+ {n} (image: {img})")
  let removed := removedNames.map (fun n =>
    let img := imageAt old n
    s!"- {n} (image: {img})")
  let modified := sharedNames.foldl (modifiedStep E old new) []
  ⟨added, removed, modified⟩

/-- The `fields_to_compare` list of `compare_system_info`. -/
def sysFieldsToCompare : List ((SystemInfo → Option String) × String) :=
  [(SystemInfo.unraid_version, "Unraid Version"),
   (SystemInfo.hostname, "Hostname"),
   (SystemInfo.kernel_version, "Kernel Version")]

/-- Embedding of `compare_system_info`. -/
def compare_system_info (old new : SystemInfo) : List String :=
  let fieldChanges := sysFieldsToCompare.foldl (fun acc p =>
    let ov := (p.1 old).getD "N/A"
    let nv := (p.1 new).getD "N/A"
    let d := p.2
    if ov ≠ nv then acc ++ [s!"{d}: {ov} → {nv}"] else acc) []
  let od := old.disks.length
  let nd := new.disks.length
  let c1 := if od ≠ nd then fieldChanges ++ [s!"Disk count: {od} → {nd}"]
            else fieldChanges
  let os := old.shares.length
  let ns := new.shares.length
  if os ≠ ns then c1 ++ [s!"Share count: {os} → {ns}"] else c1

/-- The `log_lines` list built by `generate_change_log` before joining;
`ts` models the `datetime.now()` render timestamp. -/
def changeLogLines (E : List String → List String)
    (old new : Config) (ts : String) : List String :=
  let ots := ((sysOf old).timestamp).getD "Unknown"
  let header := ["# Unraid Configuration Changes", s!"Generated: {ts}",
    s!"Previous backup: {ots}", "", "## Summary", ""]
  let ch := compare_containers E (containersOf old) (containersOf new)
  let total := ch.added.length + ch.removed.length + ch.modified.length
  let containerSection :=
    if total = 0 then
      ["✅ **No container changes detected**", "",
       "All containers remain unchanged since the last backup.", ""]
    else
      s!"📦 **{total} container changes detected**" :: "" ::
      ((if ch.added.isEmpty then [] else
          "### New Containers" :: ch.added ++ [""]) ++
       (if ch.removed.isEmpty then [] else
          "### Removed Containers" :: ch.removed ++ [""]) ++
       (if ch.modified.isEmpty then [] else
          "### Modified Containers" :: ch.modified ++ [""]))
  let sys := compare_system_info (sysOf old) (sysOf new)
  let sysSection :=
    if sys.isEmpty then
      ["## System Changes", "", "✅ **No system changes detected**", ""]
    else
      ["## System Changes", ""] ++ sys.map (fun c => s!"🖥️  {c}") ++ [""]
  header ++ containerSection ++ sysSection ++
    ["---", "*Generated by Unraid Config Guardian*", ""]

/-- Embedding of `generate_change_log`: the joined report text. -/
def generate_change_log (E : List String → List String)
    (old new : Config) (ts : String) : String :=
  String.intercalate "\n" (changeLogLines E old new ts)

/-- Embedding of `get_previous_config`.  `content` is the text of
`unraid-config.json` when the file exists; `p` models `json.load` on that
text.  The result pairs the returned value with the warnings logged. -/
def get_previous_config (p : String → Except String Config)
    (content : Option String) : Option Config × List String :=
  match content with
  | none => (none, [])
  | some s =>
    match p s with
    | Except.ok cfg => (some cfg, [])
    | Except.error e => (none, [s!"Could not read previous config: {e}"])

/-- The first-backup change log written by `create_change_log` when no
previous configuration is available. -/
def baselineReport (cfg : Config) (ts : String) : String :=
  let count := (containersOf cfg).length
  let host := ((sysOf cfg).hostname).getD "unknown"
  String.intercalate "\n"
    ["# Unraid Config Guardian - Change Log", "",
     s!"## Initial Backup - {ts}", "",
     s!"**Server:** {host}",
     s!"**Containers:** {count}", "",
     "This is the first backup for this Unraid server. Future backups will show changes compared to this",
     "baseline.", "",
     "### Summary",
     "- ✅ Initial configuration captured",
     s!"- ✅ {count} containers documented",
     "- ✅ System information recorded", "",
     "Future change logs will appear here when configurations are modified.",
     ""]

/-- Embedding of `create_change_log`.  The first component is the returned
report text; the second lists the file writes the function performs, as
(file name, written content) pairs.  The branch test models Python's
`if not old_config`, which also treats a parsed empty document as absent. -/
def create_change_log (E : List String → List String)
    (p : String → Except String Config) (content : Option String)
    (new_config : Config) (ts : String) : String × List (String × String) :=
  match (get_previous_config p content).1 with
  | some old =>
    if configTruthy old then
      let report := generate_change_log E old new_config ts
      (report, [("changes.log", report)])
    else
      let report := baselineReport new_config ts
      (report, [("changes.log", report)])
  | none =>
    let report := baselineReport new_config ts
    (report, [("changes.log", report)])

/-- The names whose shared-key field comparison is non-empty, in the order
the runtime enumerates the shared keys; these are the resources the engine
classifies as modified. -/
def modifiedNames (E : List String → List String)
    (old new : List Container) : List String :=
  (E (sharedKeyElems old new)).filter (fun n =>
    !(compare_single_container E (lookupOr old n) (lookupOr new n)).isEmpty)

/-- The lines one modified resource contributes to the modified section:
its `~ name:` header followed by its indented change descriptions. -/
def modifiedBlock (E : List String → List String)
    (old new : List Container) (n : String) : List String :=
  s!"~ {n}:" ::
    (compare_single_container E (lookupOr old n) (lookupOr new n)).map
      (fun s => "    " ++ s)

/-- The change line for `image`, independently of the other fields. -/
def imageChangeLines (c d : Container) : List String :=
  let ov := c.image.getD "N/A"
  let nv := d.image.getD "N/A"
  if ov ≠ nv then [s!"Image: {ov} → {nv}"] else []

/-- The change line for `status`, independently of the other fields. -/
def statusChangeLines (c d : Container) : List String :=
  let ov := c.status.getD "N/A"
  let nv := d.status.getD "N/A"
  if ov ≠ nv then [s!"Status: {ov} → {nv}"] else []

/-- The change line for `restart_policy`, independently of the other
fields. -/
def restartChangeLines (c d : Container) : List String :=
  let ov := c.restart_policy.getD "N/A"
  let nv := d.restart_policy.getD "N/A"
  if ov ≠ nv then [s!"Restart Policy: {ov} → {nv}"] else []

/-- The removed/added lines for the `ports` set comparison. -/
def portsChangeLines (E : List String → List String)
    (c d : Container) : List String :=
  let oldPorts := c.ports.dedup
  let newPorts := d.ports.dedup
  if sameSet oldPorts newPorts then [] else
    let removedP := oldPorts.filter (fun p => decide (¬ p ∈ newPorts))
    let addedP := newPorts.filter (fun p => decide (¬ p ∈ oldPorts))
    (if removedP.isEmpty then [] else
      let j := String.intercalate ", " (E removedP)
      [s!"Removed ports: {j}"]) ++
    (if addedP.isEmpty then [] else
      let j := String.intercalate ", " (E addedP)
      [s!"Added ports: {j}"])

/-- The removed/added lines for the `volumes` set comparison. -/
def volumesChangeLines (E : List String → List String)
    (c d : Container) : List String :=
  let oldVols := c.volumes.dedup
  let newVols := d.volumes.dedup
  if sameSet oldVols newVols then [] else
    let removedV := oldVols.filter (fun v => decide (¬ v ∈ newVols))
    let addedV := newVols.filter (fun v => decide (¬ v ∈ oldVols))
    (if removedV.isEmpty then [] else
      let j := String.intercalate ", " (E removedV)
      [s!"Removed volumes: {j}"]) ++
    (if addedV.isEmpty then [] else
      let j := String.intercalate ", " (E addedV)
      [s!"Added volumes: {j}"])

/-- The change line for the environment-variable count.  It mentions the two
counts only; no variable name or value occurs in it. -/
def envChangeLines (c d : Container) : List String :=
  let oc := envCount c
  let nc := envCount d
  if oc ≠ nc then [s!"Environment variables: {oc} → {nc}"] else []

/-- The change descriptions that do not involve the environment: the three
scalar fields followed by the ports and volumes set differences.  This
definition never consults `environment`. -/
def nonEnvChanges (E : List String → List String)
    (c d : Container) : List String :=
  imageChangeLines c d ++ statusChangeLines c d ++ restartChangeLines c d ++
    portsChangeLines E c d ++ volumesChangeLines E c d

/-- Two container records that agree on every field the diff engine reads
except that their environment dictionaries may differ, as long as the
dictionaries have the same number of keys.  In particular two records
differing only in environment variable values are related. -/
def EnvEquiv (c c' : Container) : Prop :=
  c.name = c'.name ∧ c.image = c'.image ∧ c.status = c'.status ∧
  c.restart_policy = c'.restart_policy ∧ c.ports = c'.ports ∧
  c.volumes = c'.volumes ∧ envCount c = envCount c'

/-! ### Concrete fixtures used by witnesses and counterexamples -/

/-- A sample container named `a`. -/
def conA : Container :=
  ⟨some "a", some "img1", some "running", none, ["80:8080/tcp"], ["/h:/c"],
   [("KEY", "VAL")]⟩

/-- A sample container named `b`. -/
def conB : Container :=
  ⟨some "b", some "img2", some "running", none, [], [], []⟩

/-- A sample container named `app` at image `a:1`. -/
def conApp1 : Container :=
  ⟨some "app", some "a:1", some "running", none, [], [], []⟩

/-- The container of `conApp1` after an image change to `a:2`. -/
def conApp2 : Container :=
  ⟨some "app", some "a:2", some "running", none, [], [], []⟩

/-- A sample system-info record. -/
def sysA : SystemInfo :=
  ⟨some "7.0.0", some "srv1", some "6.1.0", some "2024-01-01T00:00:00", [], []⟩

/-- A configuration holding `conApp1`. -/
def cfgApp1 : Config := ⟨some [conApp1], some sysA, false⟩

/-- A configuration holding `conApp2`. -/
def cfgApp2 : Config := ⟨some [conApp2], some sysA, false⟩

/-- The container `conA` with the same environment variable count but a
different variable value. -/
def conAValt : Container :=
  ⟨some "a", some "img1", some "running", none, ["80:8080/tcp"], ["/h:/c"],
   [("KEY", "OTHERVALUE")]⟩

/-- A configuration holding `conA`. -/
def cfgEnv1 : Config := ⟨some [conA], some sysA, false⟩

/-- A configuration holding `conAValt`. -/
def cfgEnv2 : Config := ⟨some [conAValt], some sysA, false⟩

/-- The container of `conApp1` after both an image and a status change. -/
def conApp3 : Container :=
  ⟨some "app", some "a:2", some "exited", none, [], [], []⟩

/-- A parse oracle that always fails, modelling an unparseable document. -/
def parseFail : String → Except String Config :=
  fun _ => Except.error "Expecting value"

/-- A parse oracle that always yields `cfgApp1`. -/
def parseOkApp1 : String → Except String Config :=
  fun _ => Except.ok cfgApp1

/-- A configuration with no containers. -/
def cfgEmpty : Config := ⟨some [], some sysA, false⟩

/-- A configuration holding `conA` then `conB`. -/
def cfgAB : Config := ⟨some [conA, conB], some sysA, false⟩

/-- The configuration of `cfgAB` with its resource list reordered. -/
def cfgBA : Config := ⟨some [conB, conA], some sysA, false⟩

/-- The total-count summary line of the comparison report. -/
def summaryLine (t : Nat) : String :=
  s!"📦 **{t} container changes detected**"

/-! ### Properties of admissible set enumerations -/

lemma admissible_nil {E : List String → List String} (hE : Admissible E) :
    E [] = [] := by
  refine List.eq_nil_iff_forall_not_mem.mpr fun a ha => ?_
  simpa using (hE.2 [] a).1 ha

lemma admissible_singleton {E : List String → List String} (hE : Admissible E)
    (a : String) : E [a] = [a] := by
  have hmem : ∀ x, x ∈ E [a] ↔ x = a := by
    intro x; simpa using hE.2 [a] x
  have hnd : (E [a]).Nodup := hE.1 [a]
  have hne : a ∈ E [a] := (hmem a).mpr rfl
  match h : E [a] with
  | [] => rw [h] at hne; cases hne
  | b :: t =>
    have hb : b = a := (hmem b).mp (by rw [h]; exact List.mem_cons_self b t)
    have ht : t = [] := by
      refine List.eq_nil_iff_forall_not_mem.mpr fun x hx => ?_
      have hxa : x = a := (hmem x).mp (by rw [h]; exact List.mem_cons_of_mem b hx)
      rw [h] at hnd
      exact (List.nodup_cons.mp hnd).1 (by rw [hb, ← hxa]; exact hx)
    rw [hb, ht]

lemma char_eq_of_not_lt_not_lt {a b : Char} (h1 : ¬ a < b) (h2 : ¬ b < a) :
    a = b :=
  ((lt_trichotomy a b).resolve_left h1).resolve_right h2

lemma lexLe_total : ∀ xs ys : List Char,
    lexLe xs ys = true ∨ lexLe ys xs = true := by
  intro xs
  induction xs with
  | nil => intro ys; left; rfl
  | cons a as ih =>
    intro ys
    cases ys with
    | nil => right; rfl
    | cons b bs =>
      rcases lt_trichotomy a b with h | h | h
      · left; simp [lexLe, h]
      · subst h
        rcases ih bs with h' | h'
        · left; simp [lexLe, lt_irrefl, h']
        · right; simp [lexLe, lt_irrefl, h']
      · right; simp [lexLe, h]

lemma lexLe_trans : ∀ xs ys zs : List Char,
    lexLe xs ys = true → lexLe ys zs = true → lexLe xs zs = true := by
  intro xs
  induction xs with
  | nil => intro ys zs _ _; rfl
  | cons a as ih =>
    intro ys zs h1 h2
    cases ys with
    | nil => simp [lexLe] at h1
    | cons b bs =>
      cases zs with
      | nil => simp [lexLe] at h2
      | cons c cs =>
        by_cases hab : a < b
        · by_cases hbc : b < c
          · simp [lexLe, lt_trans hab hbc]
          · by_cases hcb : c < b
            · simp [lexLe, hbc, hcb] at h2
            · have hbceq : b = c := char_eq_of_not_lt_not_lt hbc hcb
              simp [lexLe, hbceq ▸ hab]
        · by_cases hba : b < a
          · simp [lexLe, hab, hba] at h1
          · have habq : a = b := char_eq_of_not_lt_not_lt hab hba
            subst habq
            simp only [lexLe, if_neg (lt_irrefl a)] at h1
            by_cases hac : a < c
            · simp [lexLe, hac]
            · by_cases hca : c < a
              · simp [lexLe, hac, hca] at h2
              · have hacq : a = c := char_eq_of_not_lt_not_lt hac hca
                subst hacq
                simp only [lexLe, if_neg (lt_irrefl a)] at h2 ⊢
                exact ih bs cs h1 h2

lemma lexLe_antisymm : ∀ xs ys : List Char,
    lexLe xs ys = true → lexLe ys xs = true → xs = ys := by
  intro xs
  induction xs with
  | nil =>
    intro ys _ h2
    cases ys with
    | nil => rfl
    | cons b bs => simp [lexLe] at h2
  | cons a as ih =>
    intro ys h1 h2
    cases ys with
    | nil => simp [lexLe] at h1
    | cons b bs =>
      by_cases hab : a < b
      · simp [lexLe, hab, asymm hab] at h2
      · by_cases hba : b < a
        · simp [lexLe, hab, hba] at h1
        · have habq : a = b := char_eq_of_not_lt_not_lt hab hba
          subst habq
          simp only [lexLe, if_neg (lt_irrefl a)] at h1 h2
          rw [ih bs h1 h2]

instance : IsTotal String (fun a b => strLeb a b = true) :=
  ⟨fun a b => lexLe_total a.data b.data⟩

instance : IsTrans String (fun a b => strLeb a b = true) :=
  ⟨fun a b c => lexLe_trans a.data b.data c.data⟩

instance : IsAntisymm String (fun a b => strLeb a b = true) := by
  refine ⟨fun a b h1 h2 => ?_⟩
  cases a with
  | mk da =>
    cases b with
    | mk db =>
      have : da = db := lexLe_antisymm da db h1 h2
      rw [this]

lemma sortedEnum_admissible : Admissible sortedEnum := by
  refine ⟨fun xs => ?_, fun xs a => ?_⟩
  · exact ((List.perm_insertionSort _ _).nodup_iff).mpr (List.nodup_dedup xs)
  · simp [sortedEnum, List.mem_insertionSort, List.mem_dedup]

lemma sortedEnum_ext : OrderExtensional sortedEnum := by
  intro xs ys h
  have hperm : List.Perm xs.dedup ys.dedup :=
    (List.perm_ext_iff_of_nodup (List.nodup_dedup xs) (List.nodup_dedup ys)).mpr
      (fun a => by simp [List.mem_dedup, h a])
  refine List.eq_of_perm_of_sorted ?_
    (List.sorted_insertionSort _ _) (List.sorted_insertionSort _ _)
  exact ((List.perm_insertionSort _ _).trans hperm).trans
    (List.perm_insertionSort _ _).symm

lemma revEnum_admissible : Admissible revEnum := by
  refine ⟨fun xs => ?_, fun xs a => ?_⟩
  · simpa [revEnum] using sortedEnum_admissible.1 xs
  · simpa [revEnum] using sortedEnum_admissible.2 xs a

lemma presentedEnum_admissible : Admissible presentedEnum :=
  ⟨fun xs => List.nodup_dedup xs, fun xs a => List.mem_dedup⟩

/-! ### The name-keyed dictionary lookup -/

lemma buildByName_foldl_eq (n : String) :
    ∀ (cs : List Container) (acc : Option Container),
      cs.foldl (fun acc c => if keyOf c = n then some c else acc) acc
        = ((cs.filter (fun e => decide (keyOf e = n))).getLast?).or acc := by
  intro cs
  induction cs with
  | nil => intro acc; simp
  | cons a t ih =>
    intro acc
    by_cases h : keyOf a = n
    · simp only [List.foldl_cons, if_pos h, List.filter_cons,
        decide_eq_true_eq, h, if_pos trivial, ih]
      match ht : t.filter (fun e => decide (keyOf e = n)) with
      | [] => simp
      | b :: u =>
        obtain ⟨y, hy⟩ : ∃ y, (b :: u).getLast? = some y := by
          cases hgl : (b :: u).getLast? with
          | none => exact absurd (List.getLast?_eq_none_iff.mp hgl) (by simp)
          | some y => exact ⟨y, rfl⟩
        simp [List.getLast?_cons_cons, hy]
    · simp only [List.foldl_cons, if_neg h, List.filter_cons,
        decide_eq_true_eq, h, ih]
      simp

lemma buildByName_eq_getLast (cs : List Container) (n : String) :
    buildByName cs n = (cs.filter (fun e => decide (keyOf e = n))).getLast? := by
  rw [buildByName, buildByName_foldl_eq]
  simp

lemma filter_key_length_le_one {l : List Container} (h : (keysOf l).Nodup)
    (n : String) : (l.filter (fun e => decide (keyOf e = n))).length ≤ 1 := by
  induction l with
  | nil => simp
  | cons a t ih =>
    have h' : (keysOf t).Nodup := (List.nodup_cons.mp h).2
    have ha : ¬ keyOf a ∈ keysOf t := (List.nodup_cons.mp h).1
    by_cases hk : keyOf a = n
    · have hft : t.filter (fun e => decide (keyOf e = n)) = [] := by
        refine List.filter_eq_nil_iff.mpr fun e he => ?_
        simp only [decide_eq_true_eq]
        intro hkey
        exact ha (by rw [hk, ← hkey]; exact List.mem_map_of_mem keyOf he)
      simp [List.filter_cons, hk, hft]
    · simpa [List.filter_cons, hk] using ih h'

lemma perm_getLast?_of_length_le_one {α : Type} {l l' : List α}
    (h : List.Perm l l') (hl : l.length ≤ 1) : l.getLast? = l'.getLast? := by
  match l, hl with
  | [], _ =>
    have : l' = [] := h.symm.eq_nil
    rw [this]
  | [a], _ =>
    have : l' = [a] := List.perm_singleton.mp h.symm
    rw [this]

lemma buildByName_perm {l l' : List Container} (h : (keysOf l).Nodup)
    (p : List.Perm l l') (n : String) : buildByName l n = buildByName l' n := by
  rw [buildByName_eq_getLast, buildByName_eq_getLast]
  exact perm_getLast?_of_length_le_one (p.filter _) (filter_key_length_le_one h n)

/-! ### Classification of resource names -/

lemma mem_addedKeyElems {old new : List Container} {n : String} :
    n ∈ addedKeyElems old new ↔ n ∈ keysOf new ∧ ¬ n ∈ keysOf old := by
  simp [addedKeyElems, List.mem_filter, List.mem_dedup]

lemma mem_removedKeyElems {old new : List Container} {n : String} :
    n ∈ removedKeyElems old new ↔ n ∈ keysOf old ∧ ¬ n ∈ keysOf new := by
  simp [removedKeyElems, List.mem_filter, List.mem_dedup]

lemma mem_sharedKeyElems {old new : List Container} {n : String} :
    n ∈ sharedKeyElems old new ↔ n ∈ keysOf old ∧ n ∈ keysOf new := by
  simp [sharedKeyElems, List.mem_filter, List.mem_dedup]

lemma modifiedStep_pos {E : List String → List String}
    {old new : List Container} {n : String} (acc : List String)
    (h : (compare_single_container E (lookupOr old n) (lookupOr new n)).isEmpty) :
    modifiedStep E old new acc n = acc := by
  rw [modifiedStep]
  simp [h]

lemma modifiedStep_neg {E : List String → List String}
    {old new : List Container} {n : String} (acc : List String)
    (h : ¬ (compare_single_container E (lookupOr old n) (lookupOr new n)).isEmpty) :
    modifiedStep E old new acc n = acc ++ modifiedBlock E old new n := by
  rw [modifiedStep, modifiedBlock]
  simp [h]

lemma foldl_modified (E : List String → List String)
    (old new : List Container) :
    ∀ (l : List String) (acc : List String),
      l.foldl (modifiedStep E old new) acc
      = acc ++ (l.filter (fun n =>
          !(compare_single_container E (lookupOr old n) (lookupOr new n)).isEmpty)).flatMap
            (modifiedBlock E old new) := by
  intro l
  induction l with
  | nil => intro acc; simp
  | cons a t ih =>
    intro acc
    rw [List.foldl_cons]
    by_cases h :
        (compare_single_container E (lookupOr old a) (lookupOr new a)).isEmpty
    · rw [modifiedStep_pos acc h, ih, List.filter_cons_of_neg (by simp [h])]
    · rw [modifiedStep_neg acc h, ih, List.filter_cons_of_pos (by simp [h]),
        List.flatMap_cons, List.append_assoc]

lemma modified_eq (E : List String → List String)
    (old new : List Container) :
    (compare_containers E old new).modified
      = (modifiedNames E old new).flatMap (modifiedBlock E old new) := by
  simpa [compare_containers, modifiedNames] using
    foldl_modified E old new (E (sharedKeyElems old new)) []

/-! ### Congruence of the diff under key-set and lookup agreement -/

lemma compare_containers_congr_core {E : List String → List String}
    {o₁ o₂ n₁ n₂ : List Container}
    (ha : E (addedKeyElems o₁ n₁) = E (addedKeyElems o₂ n₂))
    (hr : E (removedKeyElems o₁ n₁) = E (removedKeyElems o₂ n₂))
    (hs : E (sharedKeyElems o₁ n₁) = E (sharedKeyElems o₂ n₂))
    (hbo : ∀ m, buildByName o₁ m = buildByName o₂ m)
    (hbn : ∀ m, buildByName n₁ m = buildByName n₂ m) :
    compare_containers E o₁ n₁ = compare_containers E o₂ n₂ := by
  have hio : ∀ m, imageAt o₁ m = imageAt o₂ m := fun m => by
    rw [imageAt, imageAt, hbo m]
  have hin : ∀ m, imageAt n₁ m = imageAt n₂ m := fun m => by
    rw [imageAt, imageAt, hbn m]
  have hlo : ∀ m, lookupOr o₁ m = lookupOr o₂ m := fun m => by
    rw [lookupOr, lookupOr, hbo m]
  have hln : ∀ m, lookupOr n₁ m = lookupOr n₂ m := fun m => by
    rw [lookupOr, lookupOr, hbn m]
  simp only [compare_containers]
  rw [ha, hr, hs]
  have f1 : (fun n => let img := imageAt n₁ n; s!"+ {n} (image: {img})")
      = (fun n => let img := imageAt n₂ n; s!"+ {n} (image: {img})") :=
    funext fun m => by simp only [hin m]
  have f2 : (fun n => let img := imageAt o₁ n; s!"- {n} (image: {img})")
      = (fun n => let img := imageAt o₂ n; s!"- {n} (image: {img})") :=
    funext fun m => by simp only [hio m]
  have f3 : modifiedStep E o₁ n₁ = modifiedStep E o₂ n₂ :=
    funext fun acc => funext fun m => by
      rw [modifiedStep, modifiedStep, hlo m, hln m]
  rw [f1, f2, f3]

lemma compare_containers_congr {E : List String → List String}
    (hext : OrderExtensional E) {o₁ o₂ n₁ n₂ : List Container}
    (hko : ∀ m, m ∈ keysOf o₁ ↔ m ∈ keysOf o₂)
    (hkn : ∀ m, m ∈ keysOf n₁ ↔ m ∈ keysOf n₂)
    (hbo : ∀ m, buildByName o₁ m = buildByName o₂ m)
    (hbn : ∀ m, buildByName n₁ m = buildByName n₂ m) :
    compare_containers E o₁ n₁ = compare_containers E o₂ n₂ := by
  refine compare_containers_congr_core ?_ ?_ ?_ hbo hbn
  · exact hext _ _ (fun a => by
      rw [mem_addedKeyElems, mem_addedKeyElems, hko a, hkn a])
  · exact hext _ _ (fun a => by
      rw [mem_removedKeyElems, mem_removedKeyElems, hko a, hkn a])
  · exact hext _ _ (fun a => by
      rw [mem_sharedKeyElems, mem_sharedKeyElems, hko a, hkn a])

lemma compare_containers_congr_of_eq {E : List String → List String}
    {o₁ o₂ n₁ n₂ : List Container}
    (ha : addedKeyElems o₁ n₁ = addedKeyElems o₂ n₂)
    (hr : removedKeyElems o₁ n₁ = removedKeyElems o₂ n₂)
    (hs : sharedKeyElems o₁ n₁ = sharedKeyElems o₂ n₂)
    (hbo : ∀ m, buildByName o₁ m = buildByName o₂ m)
    (hbn : ∀ m, buildByName n₁ m = buildByName n₂ m) :
    compare_containers E o₁ n₁ = compare_containers E o₂ n₂ :=
  compare_containers_congr_core (congrArg E ha) (congrArg E hr)
    (congrArg E hs) hbo hbn

/-! ### Comparing identical inputs -/

lemma sameSet_self (l : List String) : sameSet l l = true := by
  simp [sameSet, List.all_eq_true]

lemma compare_single_refl (E : List String → List String) (c : Container) :
    compare_single_container E c c = [] := by
  simp [compare_single_container, fieldsToCompare, sameSet_self]

lemma compare_system_refl (s : SystemInfo) : compare_system_info s s = [] := by
  simp [compare_system_info, sysFieldsToCompare]

lemma compare_containers_self {E : List String → List String}
    (hE : Admissible E) (l : List Container) :
    compare_containers E l l = ⟨[], [], []⟩ := by
  have hadd : addedKeyElems l l = [] :=
    List.filter_eq_nil_iff.mpr fun a ha => by
      simp only [decide_eq_true_eq, not_not]
      simpa using List.mem_dedup.mp ha
  have hrem : removedKeyElems l l = [] :=
    List.filter_eq_nil_iff.mpr fun a ha => by
      simp only [decide_eq_true_eq, not_not]
      simpa using List.mem_dedup.mp ha
  have hmod : modifiedNames E l l = [] :=
    List.filter_eq_nil_iff.mpr fun a _ => by
      simp [compare_single_refl]
  have hmodc : (compare_containers E l l).modified = [] := by
    rw [modified_eq, hmod, List.flatMap_nil]
  have haddc : (compare_containers E l l).added = [] := by
    simp [compare_containers, hadd, admissible_nil hE]
  have hremc : (compare_containers E l l).removed = [] := by
    simp [compare_containers, hrem, admissible_nil hE]
  have heta : compare_containers E l l
      = ⟨(compare_containers E l l).added, (compare_containers E l l).removed,
         (compare_containers E l l).modified⟩ := rfl
  rw [heta, haddc, hremc, hmodc]

/-! ### Decomposition of the field comparison into its fixed-order parts -/

lemma compare_single_decomp (E : List String → List String)
    (c d : Container) :
    compare_single_container E c d
      = imageChangeLines c d ++ statusChangeLines c d ++
        restartChangeLines c d ++ portsChangeLines E c d ++
        volumesChangeLines E c d ++ envChangeLines c d := by
  have sImg : (toString "" ++ toString "Image" ++ toString ": " : String)
      = toString "Image: " := rfl
  have sSt : (toString "" ++ toString "Status" ++ toString ": " : String)
      = toString "Status: " := rfl
  have sRp : (toString "" ++ toString "Restart Policy" ++ toString ": " : String)
      = toString "Restart Policy: " := rfl
  simp only [compare_single_container, fieldsToCompare, List.foldl,
    imageChangeLines, statusChangeLines, restartChangeLines,
    portsChangeLines, volumesChangeLines, envChangeLines]
  by_cases h1 : c.image.getD "N/A" ≠ d.image.getD "N/A" <;>
    by_cases h2 : c.status.getD "N/A" ≠ d.status.getD "N/A" <;>
      by_cases h3 : c.restart_policy.getD "N/A" ≠ d.restart_policy.getD "N/A" <;>
        simp [h1, h2, h3, List.append_assoc, sImg, sSt, sRp]

/-! ### Environment privacy: the diff factors through the variable count -/

lemma envEquiv_refl (c : Container) : EnvEquiv c c :=
  ⟨rfl, rfl, rfl, rfl, rfl, rfl, rfl⟩

lemma envEquiv_keyOf {c c' : Container} (h : EnvEquiv c c') :
    keyOf c = keyOf c' := by
  rw [keyOf, keyOf, h.1]

lemma compare_single_envequiv (E : List String → List String)
    {c c' d d' : Container} (hc : EnvEquiv c c') (hd : EnvEquiv d d') :
    compare_single_container E c d = compare_single_container E c' d' := by
  obtain ⟨-, hci, hcs, hcr, hcp, hcv, hce⟩ := hc
  obtain ⟨-, hdi, hds, hdr, hdp, hdv, hde⟩ := hd
  simp only [compare_single_container, fieldsToCompare, List.foldl]
  rw [hci, hcs, hcr, hcp, hcv, hce, hdi, hds, hdr, hdp, hdv, hde]

lemma filter_key_envequiv {l l' : List Container} (n : String)
    (h : List.Forall₂ EnvEquiv l l') :
    List.Forall₂ EnvEquiv (l.filter (fun e => decide (keyOf e = n)))
      (l'.filter (fun e => decide (keyOf e = n))) := by
  induction h with
  | nil => simp
  | cons hab hrest ih =>
    rename_i a b t t'
    by_cases hk : keyOf a = n
    · rw [List.filter_cons_of_pos (by simp [hk]),
        List.filter_cons_of_pos (by simp [← envEquiv_keyOf hab, hk])]
      exact List.Forall₂.cons hab ih
    · rw [List.filter_cons_of_neg (by simp [hk]),
        List.filter_cons_of_neg (by simp [← envEquiv_keyOf hab, hk])]
      exact ih

lemma getLast?_forall₂ {α : Type} {R : α → α → Prop} :
    ∀ {l l' : List α}, List.Forall₂ R l l' →
      (l.getLast? = none ∧ l'.getLast? = none) ∨
      (∃ a b, l.getLast? = some a ∧ l'.getLast? = some b ∧ R a b) := by
  intro l l' h
  induction h with
  | nil => left; simp
  | cons hab hrest ih =>
    rename_i a b t t'
    right
    cases t with
    | nil =>
      cases hrest
      exact ⟨a, b, by simp, by simp, hab⟩
    | cons x u =>
      cases t' with
      | nil => cases hrest
      | cons y v =>
        rcases ih with ⟨h1, _⟩ | ⟨p, q, h1, h2, hr⟩
        · rw [List.getLast?_eq_none_iff] at h1; cases h1
        · exact ⟨p, q, by rw [List.getLast?_cons_cons, h1],
            by rw [List.getLast?_cons_cons, h2], hr⟩

lemma lookupOr_envequiv {l l' : List Container} (n : String)
    (h : List.Forall₂ EnvEquiv l l') :
    EnvEquiv (lookupOr l n) (lookupOr l' n) := by
  rw [lookupOr, lookupOr, buildByName_eq_getLast, buildByName_eq_getLast]
  rcases getLast?_forall₂ (filter_key_envequiv n h) with ⟨h1, h2⟩ | ⟨a, b, h1, h2, hr⟩
  · rw [h1, h2]; exact envEquiv_refl _
  · rw [h1, h2]; exact hr

lemma keysOf_envequiv {l l' : List Container}
    (h : List.Forall₂ EnvEquiv l l') : keysOf l = keysOf l' := by
  induction h with
  | nil => rfl
  | cons hab hrest ih =>
    simp only [keysOf, List.map_cons] at ih ⊢
    rw [envEquiv_keyOf hab, ih]

lemma imageAt_envequiv {l l' : List Container} (n : String)
    (h : List.Forall₂ EnvEquiv l l') : imageAt l n = imageAt l' n := by
  rw [imageAt, imageAt, buildByName_eq_getLast, buildByName_eq_getLast]
  rcases getLast?_forall₂ (filter_key_envequiv n h) with ⟨h1, h2⟩ | ⟨a, b, h1, h2, hr⟩
  · rw [h1, h2]
  · rw [h1, h2]
    simp only []
    rw [hr.2.1]

lemma compare_containers_envequiv (E : List String → List String)
    {o o' n n' : List Container}
    (ho : List.Forall₂ EnvEquiv o o') (hn : List.Forall₂ EnvEquiv n n') :
    compare_containers E o n = compare_containers E o' n' := by
  have hko := keysOf_envequiv ho
  have hkn := keysOf_envequiv hn
  have ha : addedKeyElems o n = addedKeyElems o' n' := by
    rw [addedKeyElems, addedKeyElems, hko, hkn]
  have hr : removedKeyElems o n = removedKeyElems o' n' := by
    rw [removedKeyElems, removedKeyElems, hko, hkn]
  have hs : sharedKeyElems o n = sharedKeyElems o' n' := by
    rw [sharedKeyElems, sharedKeyElems, hko, hkn]
  simp only [compare_containers]
  rw [ha, hr, hs]
  have f1 : (fun m => let img := imageAt n m; s!"+ {m} (image: {img})")
      = (fun m => let img := imageAt n' m; s!"+ {m} (image: {img})") :=
    funext fun m => by simp only [imageAt_envequiv m hn]
  have f2 : (fun m => let img := imageAt o m; s!"- {m} (image: {img})")
      = (fun m => let img := imageAt o' m; s!"- {m} (image: {img})") :=
    funext fun m => by simp only [imageAt_envequiv m ho]
  have f3 : modifiedStep E o n = modifiedStep E o' n' :=
    funext fun acc => funext fun m => by
      rw [modifiedStep, modifiedStep,
        compare_single_envequiv E (lookupOr_envequiv m ho) (lookupOr_envequiv m hn)]
  rw [f1, f2, f3]

/-! ### The claims -/

/-- C4: comparing a snapshot against an identical copy of itself yields empty
added, removed and modified lists and an empty system-change list, and the
rendered comparison report is exactly the fixed no-changes text for both the
container section and the system section. -/
theorem self_comparison_empty_and_fixed_report
    (E : List String → List String) (hE : Admissible E)
    (S : Config) (ts : String) :
    compare_containers E (containersOf S) (containersOf S) = ⟨[], [], []⟩ ∧
    compare_system_info (sysOf S) (sysOf S) = [] ∧
    (let ots := ((sysOf S).timestamp).getD "Unknown"
     generate_change_log E S S ts = String.intercalate "\n"
       ["# Unraid Configuration Changes", s!"Generated: {ts}",
        s!"Previous backup: {ots}", "", "## Summary", "",
        "✅ **No container changes detected**", "",
        "All containers remain unchanged since the last backup.", "",
        "## System Changes", "", "✅ **No system changes detected**", "",
        "---", "*Generated by Unraid Config Guardian*", ""]) := by
  refine ⟨compare_containers_self hE _, compare_system_refl _, ?_⟩
  simp only [generate_change_log, changeLogLines, compare_containers_self hE,
    compare_system_refl, List.length_nil, List.isEmpty_nil, Nat.add_zero,
    if_pos rfl]
  simp

/-- Witness for C4 at a concrete snapshot and timestamp. -/
theorem self_comparison_empty_and_fixed_report_witness :
    compare_containers sortedEnum (containersOf cfgApp1) (containersOf cfgApp1)
        = ⟨[], [], []⟩ ∧
    compare_system_info (sysOf cfgApp1) (sysOf cfgApp1) = [] ∧
    (let ots := ((sysOf cfgApp1).timestamp).getD "Unknown"
     generate_change_log sortedEnum cfgApp1 cfgApp1 "2024-02-02 00:00:00"
       = String.intercalate "\n"
       ["# Unraid Configuration Changes", s!"Generated: 2024-02-02 00:00:00",
        s!"Previous backup: {ots}", "", "## Summary", "",
        "✅ **No container changes detected**", "",
        "All containers remain unchanged since the last backup.", "",
        "## System Changes", "", "✅ **No system changes detected**", "",
        "---", "*Generated by Unraid Config Guardian*", ""]) :=
  self_comparison_empty_and_fixed_report sortedEnum sortedEnum_admissible
    cfgApp1 "2024-02-02 00:00:00"

lemma admissible_perm {E E' : List String → List String}
    (hE : Admissible E) (hE' : Admissible E') {l l' : List String}
    (h : ∀ a, a ∈ l ↔ a ∈ l') : List.Perm (E l) (E' l') :=
  (List.perm_ext_iff_of_nodup (hE.1 l) (hE'.1 l')).mpr
    (fun a => by rw [hE.2 l a, hE'.2 l' a]; exact h a)

lemma portsChangeLines_nil_iff (E E' : List String → List String)
    (c d : Container) :
    portsChangeLines E c d = [] ↔ portsChangeLines E' c d = [] := by
  rw [portsChangeLines, portsChangeLines]
  by_cases hs : sameSet c.ports.dedup d.ports.dedup = true
  · simp [hs]
  · simp only [if_neg hs]
    by_cases h1 : (c.ports.dedup.filter
        (fun p => decide (¬ p ∈ d.ports.dedup))).isEmpty <;>
      by_cases h2 : (d.ports.dedup.filter
          (fun p => decide (¬ p ∈ c.ports.dedup))).isEmpty <;>
        simp [h1, h2]

lemma volumesChangeLines_nil_iff (E E' : List String → List String)
    (c d : Container) :
    volumesChangeLines E c d = [] ↔ volumesChangeLines E' c d = [] := by
  rw [volumesChangeLines, volumesChangeLines]
  by_cases hs : sameSet c.volumes.dedup d.volumes.dedup = true
  · simp [hs]
  · simp only [if_neg hs]
    by_cases h1 : (c.volumes.dedup.filter
        (fun v => decide (¬ v ∈ d.volumes.dedup))).isEmpty <;>
      by_cases h2 : (d.volumes.dedup.filter
          (fun v => decide (¬ v ∈ c.volumes.dedup))).isEmpty <;>
        simp [h1, h2]

lemma compare_single_nil_iff (E E' : List String → List String)
    (c d : Container) :
    compare_single_container E c d = [] ↔
      compare_single_container E' c d = [] := by
  rw [compare_single_decomp E, compare_single_decomp E']
  simp only [List.append_eq_nil]
  have hp := portsChangeLines_nil_iff E E' c d
  have hv := volumesChangeLines_nil_iff E E' c d
  tauto

lemma compare_single_isEmpty_eq (E E' : List String → List String)
    (c d : Container) :
    (compare_single_container E c d).isEmpty
      = (compare_single_container E' c d).isEmpty := by
  by_cases hh : compare_single_container E c d = []
  · rw [hh, (compare_single_nil_iff E E' c d).mp hh]
  · have hh' : compare_single_container E' c d ≠ [] := fun hx =>
      hh ((compare_single_nil_iff E E' c d).mpr hx)
    obtain ⟨x, xs, hx⟩ := List.exists_cons_of_ne_nil hh
    obtain ⟨y, ys, hy⟩ := List.exists_cons_of_ne_nil hh'
    rw [hx, hy]
    rfl

set_option maxRecDepth 8000 in
/-- C3 counterexample: the rendered report is not a function of the two
snapshots alone.  Two runs whose admissible set-iteration orders differ
(as two CPython processes with different hash salts can) produce different
report bytes on the same snapshots, and under an insertion-order-sensitive
admissible iteration order (as CPython exhibits under hash collisions)
permuting the resource list of one input also changes the report bytes. -/
theorem report_depends_on_set_iteration_counterexample :
    Admissible sortedEnum ∧ Admissible revEnum ∧ Admissible presentedEnum ∧
    generate_change_log sortedEnum cfgEmpty cfgAB "T"
      ≠ generate_change_log revEnum cfgEmpty cfgAB "T" ∧
    List.Perm (containersOf cfgAB) (containersOf cfgBA) ∧
    generate_change_log presentedEnum cfgEmpty cfgAB "T"
      ≠ generate_change_log presentedEnum cfgEmpty cfgBA "T" :=
  ⟨sortedEnum_admissible, revEnum_admissible, presentedEnum_admissible,
   by decide, by decide, by decide⟩

/-- C3 amended: the comparison and rendering determine the report's content
but not its byte-level line order.  For any two runs on the same snapshots —
any admissible set-iteration orders, any permutations of the resource lists,
names unique per the data model — the added lines, the removed lines and the
modified resource names are permutations of each other; the report bodies
are byte-identical only under the additional idealization, stated here as an
explicit hypothesis, that the single run's iteration order is a function of
each set's elements (one process, no collision effects). -/
theorem report_content_invariant_up_to_enumeration
    (E E' : List String → List String)
    (hE : Admissible E) (hE' : Admissible E')
    (old new old' new' : Config) (ts : String)
    (hpo : List.Perm (containersOf old) (containersOf old'))
    (hpn : List.Perm (containersOf new) (containersOf new'))
    (hno : (keysOf (containersOf old)).Nodup)
    (hnn : (keysOf (containersOf new)).Nodup)
    (hso : sysOf old = sysOf old') (hsn : sysOf new = sysOf new') :
    List.Perm
      (compare_containers E (containersOf old) (containersOf new)).added
      (compare_containers E' (containersOf old') (containersOf new')).added ∧
    List.Perm
      (compare_containers E (containersOf old) (containersOf new)).removed
      (compare_containers E' (containersOf old') (containersOf new')).removed ∧
    List.Perm
      (modifiedNames E (containersOf old) (containersOf new))
      (modifiedNames E' (containersOf old') (containersOf new')) ∧
    (OrderExtensional E → E' = E →
      generate_change_log E old new ts
        = generate_change_log E' old' new' ts) := by
  have hbo : ∀ m, buildByName (containersOf old) m
      = buildByName (containersOf old') m := buildByName_perm hno hpo
  have hbn : ∀ m, buildByName (containersOf new) m
      = buildByName (containersOf new') m := buildByName_perm hnn hpn
  have hmo : ∀ a, a ∈ keysOf (containersOf old)
      ↔ a ∈ keysOf (containersOf old') := fun a => (hpo.map keyOf).mem_iff
  have hmn : ∀ a, a ∈ keysOf (containersOf new)
      ↔ a ∈ keysOf (containersOf new') := fun a => (hpn.map keyOf).mem_iff
  refine ⟨?_, ?_, ?_, ?_⟩
  · have hperm : List.Perm
        (E (addedKeyElems (containersOf old) (containersOf new)))
        (E' (addedKeyElems (containersOf old') (containersOf new'))) :=
      admissible_perm hE hE' (fun a => by
        rw [mem_addedKeyElems, mem_addedKeyElems, hmo a, hmn a])
    have hfun : (fun n => let img := imageAt (containersOf new) n
          s!"+ {n} (image: {img})")
        = (fun n => let img := imageAt (containersOf new') n
          s!"+ {n} (image: {img})") :=
      funext fun m => by simp only [imageAt, hbn m]
    show List.Perm
      ((E (addedKeyElems (containersOf old) (containersOf new))).map _)
      ((E' (addedKeyElems (containersOf old') (containersOf new'))).map _)
    rw [hfun]
    exact hperm.map _
  · have hperm : List.Perm
        (E (removedKeyElems (containersOf old) (containersOf new)))
        (E' (removedKeyElems (containersOf old') (containersOf new'))) :=
      admissible_perm hE hE' (fun a => by
        rw [mem_removedKeyElems, mem_removedKeyElems, hmo a, hmn a])
    have hfun : (fun n => let img := imageAt (containersOf old) n
          s!"- {n} (image: {img})")
        = (fun n => let img := imageAt (containersOf old') n
          s!"- {n} (image: {img})") :=
      funext fun m => by simp only [imageAt, hbo m]
    show List.Perm
      ((E (removedKeyElems (containersOf old) (containersOf new))).map _)
      ((E' (removedKeyElems (containersOf old') (containersOf new'))).map _)
    rw [hfun]
    exact hperm.map _
  · have hperm : List.Perm
        (E (sharedKeyElems (containersOf old) (containersOf new)))
        (E' (sharedKeyElems (containersOf old') (containersOf new'))) :=
      admissible_perm hE hE' (fun a => by
        rw [mem_sharedKeyElems, mem_sharedKeyElems, hmo a, hmn a])
    have hpred : (fun m =>
          !(compare_single_container E' (lookupOr (containersOf old') m)
            (lookupOr (containersOf new') m)).isEmpty)
        = (fun m =>
          !(compare_single_container E (lookupOr (containersOf old) m)
            (lookupOr (containersOf new) m)).isEmpty) :=
      funext fun m => by
        have h1 : lookupOr (containersOf old') m
            = lookupOr (containersOf old) m := by
          rw [lookupOr, lookupOr, ← hbo m]
        have h2 : lookupOr (containersOf new') m
            = lookupOr (containersOf new) m := by
          rw [lookupOr, lookupOr, ← hbn m]
        rw [h1, h2, compare_single_isEmpty_eq E' E]
    rw [modifiedNames, modifiedNames, hpred]
    exact hperm.filter _
  · intro hext hEE
    have hc : compare_containers E (containersOf old) (containersOf new)
        = compare_containers E (containersOf old') (containersOf new') :=
      compare_containers_congr hext hmo hmn hbo hbn
    rw [hEE]
    simp only [generate_change_log, changeLogLines, hc, hso, hsn]

/-- Witness for the amended C3: two runs with different admissible orders
on reordered inputs yield added lists that are permutations of each other,
and with the ascending order — which is a function of the element set — the
reports for reordered inputs are byte-identical. -/
theorem report_content_invariant_up_to_enumeration_witness :
    List.Perm
      (compare_containers sortedEnum (containersOf cfgEmpty)
        (containersOf cfgAB)).added
      (compare_containers revEnum (containersOf cfgEmpty)
        (containersOf cfgBA)).added ∧
    generate_change_log sortedEnum cfgEmpty cfgAB "T"
      = generate_change_log sortedEnum cfgEmpty cfgBA "T" :=
  ⟨(report_content_invariant_up_to_enumeration sortedEnum revEnum
      sortedEnum_admissible revEnum_admissible cfgEmpty cfgAB cfgEmpty cfgBA
      "T" (by decide) (by decide) (by decide) (by decide) rfl rfl).1,
   (report_content_invariant_up_to_enumeration sortedEnum sortedEnum
      sortedEnum_admissible sortedEnum_admissible cfgEmpty cfgAB cfgEmpty
      cfgBA "T" (by decide) (by decide) (by decide) (by decide) rfl
      rfl).2.2.2 sortedEnum_ext rfl⟩

/-- C5: for singleton snapshots with distinct resource names, comparing
A as previous against B as current reports B's resource as the single
addition and A's as the single removal, and swapping the roles swaps the
two lists; the modified list is empty in both directions. -/
theorem singleton_add_remove_symmetry
    (E : List String → List String) (hE : Admissible E)
    (x y : Container) (hxy : keyOf x ≠ keyOf y) :
    compare_containers E [x] [y]
      = ⟨["+ " ++ keyOf y ++ " (image: " ++ y.image.getD "unknown" ++ ")"],
         ["- " ++ keyOf x ++ " (image: " ++ x.image.getD "unknown" ++ ")"],
         []⟩ ∧
    compare_containers E [y] [x]
      = ⟨["+ " ++ keyOf x ++ " (image: " ++ x.image.getD "unknown" ++ ")"],
         ["- " ++ keyOf y ++ " (image: " ++ y.image.getD "unknown" ++ ")"],
         []⟩ := by
  have main : ∀ u v : Container, keyOf u ≠ keyOf v →
      compare_containers E [u] [v]
        = ⟨["+ " ++ keyOf v ++ " (image: " ++ v.image.getD "unknown" ++ ")"],
           ["- " ++ keyOf u ++ " (image: " ++ u.image.getD "unknown" ++ ")"],
           []⟩ := by
    intro u v huv
    have hadd : addedKeyElems [u] [v] = [keyOf v] := by
      simp [addedKeyElems, keysOf, Ne.symm huv]
    have hrem : removedKeyElems [u] [v] = [keyOf u] := by
      simp [removedKeyElems, keysOf, huv]
    have hshared : sharedKeyElems [u] [v] = [] := by
      simp [sharedKeyElems, keysOf, huv]
    have hbv : buildByName [v] (keyOf v) = some v := by
      simp [buildByName]
    have hbu : buildByName [u] (keyOf u) = some u := by
      simp [buildByName]
    simp only [compare_containers, hadd, hrem, hshared,
      admissible_singleton hE, admissible_nil hE, List.map_cons, List.map_nil,
      List.foldl_nil, imageAt, hbv, hbu]
    rfl
  exact ⟨main x y hxy, main y x (Ne.symm hxy)⟩

/-- Witness for C5 at two concrete distinctly named containers. -/
theorem singleton_add_remove_symmetry_witness :
    compare_containers sortedEnum [conA] [conB]
      = ⟨["+ " ++ keyOf conB ++ " (image: " ++ conB.image.getD "unknown" ++ ")"],
         ["- " ++ keyOf conA ++ " (image: " ++ conA.image.getD "unknown" ++ ")"],
         []⟩ ∧
    compare_containers sortedEnum [conB] [conA]
      = ⟨["+ " ++ keyOf conA ++ " (image: " ++ conA.image.getD "unknown" ++ ")"],
         ["- " ++ keyOf conB ++ " (image: " ++ conB.image.getD "unknown" ++ ")"],
         []⟩ :=
  singleton_add_remove_symmetry sortedEnum sortedEnum_admissible
    conA conB (by decide)

/-- C2 amended: the added and removed lists contain exactly one rendered
line per name that is respectively current-only or previous-only, and the
modified section consists of exactly the shared names with a non-empty
field comparison; all three follow the runtime's set-enumeration order,
which is not guaranteed to be ascending by resource name. -/
theorem classification_follows_enumeration_order
    (E : List String → List String) (hE : Admissible E)
    (old new : List Container) :
    (compare_containers E old new).added
        = (E (addedKeyElems old new)).map (fun n =>
            let img := imageAt new n
            s!"+ {n} (image: {img})") ∧
    (∀ n, n ∈ E (addedKeyElems old new)
        ↔ n ∈ keysOf new ∧ ¬ n ∈ keysOf old) ∧
    (compare_containers E old new).removed
        = (E (removedKeyElems old new)).map (fun n =>
            let img := imageAt old n
            s!"- {n} (image: {img})") ∧
    (∀ n, n ∈ E (removedKeyElems old new)
        ↔ n ∈ keysOf old ∧ ¬ n ∈ keysOf new) ∧
    (compare_containers E old new).modified
        = (modifiedNames E old new).flatMap (modifiedBlock E old new) ∧
    (∀ n, n ∈ modifiedNames E old new
        ↔ (n ∈ keysOf old ∧ n ∈ keysOf new) ∧
          compare_single_container E (lookupOr old n) (lookupOr new n) ≠ []) := by
  refine ⟨rfl, fun n => ?_, rfl, fun n => ?_, modified_eq E old new, fun n => ?_⟩
  · exact (hE.2 _ n).trans mem_addedKeyElems
  · exact (hE.2 _ n).trans mem_removedKeyElems
  · rw [modifiedNames, List.mem_filter]
    rw [hE.2 _ n, mem_sharedKeyElems]
    simp

/-- Witness for the amended C2 at a concrete pair of snapshots. -/
theorem classification_follows_enumeration_order_witness :
    (compare_containers sortedEnum [conA] [conB]).added
        = (sortedEnum (addedKeyElems [conA] [conB])).map (fun n =>
            let img := imageAt [conB] n
            s!"+ {n} (image: {img})") ∧
    (∀ n, n ∈ sortedEnum (addedKeyElems [conA] [conB])
        ↔ n ∈ keysOf [conB] ∧ ¬ n ∈ keysOf [conA]) ∧
    (compare_containers sortedEnum [conA] [conB]).removed
        = (sortedEnum (removedKeyElems [conA] [conB])).map (fun n =>
            let img := imageAt [conA] n
            s!"- {n} (image: {img})") ∧
    (∀ n, n ∈ sortedEnum (removedKeyElems [conA] [conB])
        ↔ n ∈ keysOf [conA] ∧ ¬ n ∈ keysOf [conB]) ∧
    (compare_containers sortedEnum [conA] [conB]).modified
        = (modifiedNames sortedEnum [conA] [conB]).flatMap
            (modifiedBlock sortedEnum [conA] [conB]) ∧
    (∀ n, n ∈ modifiedNames sortedEnum [conA] [conB]
        ↔ (n ∈ keysOf [conA] ∧ n ∈ keysOf [conB]) ∧
          compare_single_container sortedEnum
            (lookupOr [conA] n) (lookupOr [conB] n) ≠ []) :=
  classification_follows_enumeration_order sortedEnum sortedEnum_admissible
    [conA] [conB]

/-- C2 counterexample: under the admissible descending enumeration (a
possible set-iteration order of the runtime), two added resources named
`a` and `b` are reported with `b` first, so the added list is not ordered
by ascending resource name. -/
theorem added_list_not_sorted_counterexample :
    Admissible revEnum ∧
    (compare_containers revEnum [] [conA, conB]).added
      = ["+ b (image: img2)", "+ a (image: img1)"] ∧
    strLeb "a" "b" = true ∧ strLeb "b" "a" = false :=
  ⟨revEnum_admissible, by decide, by decide, by decide⟩

lemma modified_nil_iff (E : List String → List String)
    (old new : List Container) :
    (compare_containers E old new).modified = []
      ↔ modifiedNames E old new = [] := by
  rw [modified_eq]
  constructor
  · intro h
    refine List.eq_nil_iff_forall_not_mem.mpr fun a ha => ?_
    have hb := List.flatMap_eq_nil_iff.mp h a ha
    simp [modifiedBlock] at hb
  · intro h; rw [h]; rfl

lemma modified_length_eq (E : List String → List String)
    (old new : List Container) :
    (compare_containers E old new).modified.length
      = ((modifiedNames E old new).map (fun n =>
          1 + (compare_single_container E (lookupOr old n)
                (lookupOr new n)).length)).sum := by
  rw [modified_eq, List.length_flatMap]
  refine congrArg List.sum ?_
  have hf : (List.length ∘ modifiedBlock E old new)
      = (fun n => 1 + (compare_single_container E (lookupOr old n)
          (lookupOr new n)).length) := by
    funext n
    simp [modifiedBlock, Nat.add_comm]
  rw [hf]

/-- C1 amended: the total reported by the renderer is
`|added| + |removed| + |modified rendered lines|`, where each modified
resource contributes one header line plus one line per change description
(not one unit per resource); the total is zero iff no resource is added,
removed or modified, and exactly then the fixed no-changes notice is
emitted, otherwise the summary line carries that total. -/
theorem total_counts_rendered_lines
    (E : List String → List String)
    (old new : Config) (ts : String) :
    (compare_containers E (containersOf old) (containersOf new)).modified.length
      = ((modifiedNames E (containersOf old) (containersOf new)).map (fun n =>
          1 + (compare_single_container E (lookupOr (containersOf old) n)
                (lookupOr (containersOf new) n)).length)).sum ∧
    ((compare_containers E (containersOf old) (containersOf new)).added.length
        + (compare_containers E (containersOf old) (containersOf new)).removed.length
        + (compare_containers E (containersOf old) (containersOf new)).modified.length = 0
      ↔ (compare_containers E (containersOf old) (containersOf new)).added = []
        ∧ (compare_containers E (containersOf old) (containersOf new)).removed = []
        ∧ modifiedNames E (containersOf old) (containersOf new) = []) ∧
    ((compare_containers E (containersOf old) (containersOf new)).added.length
        + (compare_containers E (containersOf old) (containersOf new)).removed.length
        + (compare_containers E (containersOf old) (containersOf new)).modified.length = 0 →
      "✅ **No container changes detected**" ∈ changeLogLines E old new ts) ∧
    ((compare_containers E (containersOf old) (containersOf new)).added.length
        + (compare_containers E (containersOf old) (containersOf new)).removed.length
        + (compare_containers E (containersOf old) (containersOf new)).modified.length ≠ 0 →
      summaryLine
        ((compare_containers E (containersOf old) (containersOf new)).added.length
          + (compare_containers E (containersOf old) (containersOf new)).removed.length
          + (compare_containers E (containersOf old) (containersOf new)).modified.length)
        ∈ changeLogLines E old new ts) := by
  refine ⟨modified_length_eq E _ _, ?_, ?_, ?_⟩
  · rw [Nat.add_eq_zero, Nat.add_eq_zero]
    rw [List.length_eq_zero, List.length_eq_zero, List.length_eq_zero]
    rw [modified_nil_iff]
    tauto
  · intro h
    simp only [changeLogLines]
    rw [if_pos h]
    simp
  · intro h
    simp only [changeLogLines]
    rw [if_neg h]
    simp [summaryLine]

/-- Witness for the amended C1 at a concrete pair of configurations. -/
theorem total_counts_rendered_lines_witness :
    (compare_containers sortedEnum (containersOf cfgApp1) (containersOf cfgApp2)).modified.length
      = ((modifiedNames sortedEnum (containersOf cfgApp1) (containersOf cfgApp2)).map (fun n =>
          1 + (compare_single_container sortedEnum
                (lookupOr (containersOf cfgApp1) n)
                (lookupOr (containersOf cfgApp2) n)).length)).sum ∧
    ((compare_containers sortedEnum (containersOf cfgApp1) (containersOf cfgApp2)).added.length
        + (compare_containers sortedEnum (containersOf cfgApp1) (containersOf cfgApp2)).removed.length
        + (compare_containers sortedEnum (containersOf cfgApp1) (containersOf cfgApp2)).modified.length = 0
      ↔ (compare_containers sortedEnum (containersOf cfgApp1) (containersOf cfgApp2)).added = []
        ∧ (compare_containers sortedEnum (containersOf cfgApp1) (containersOf cfgApp2)).removed = []
        ∧ modifiedNames sortedEnum (containersOf cfgApp1) (containersOf cfgApp2) = []) ∧
    ((compare_containers sortedEnum (containersOf cfgApp1) (containersOf cfgApp2)).added.length
        + (compare_containers sortedEnum (containersOf cfgApp1) (containersOf cfgApp2)).removed.length
        + (compare_containers sortedEnum (containersOf cfgApp1) (containersOf cfgApp2)).modified.length = 0 →
      "✅ **No container changes detected**"
        ∈ changeLogLines sortedEnum cfgApp1 cfgApp2 "T") ∧
    ((compare_containers sortedEnum (containersOf cfgApp1) (containersOf cfgApp2)).added.length
        + (compare_containers sortedEnum (containersOf cfgApp1) (containersOf cfgApp2)).removed.length
        + (compare_containers sortedEnum (containersOf cfgApp1) (containersOf cfgApp2)).modified.length ≠ 0 →
      summaryLine
        ((compare_containers sortedEnum (containersOf cfgApp1) (containersOf cfgApp2)).added.length
          + (compare_containers sortedEnum (containersOf cfgApp1) (containersOf cfgApp2)).removed.length
          + (compare_containers sortedEnum (containersOf cfgApp1) (containersOf cfgApp2)).modified.length)
        ∈ changeLogLines sortedEnum cfgApp1 cfgApp2 "T") :=
  total_counts_rendered_lines sortedEnum cfgApp1 cfgApp2 "T"

/-- C1 counterexample: a single modified resource with one change
description makes the renderer report a total of 2 (its header line plus
its change line), although `|added| + |removed| + |modified resources|`
is `0 + 0 + 1 = 1`. -/
theorem total_double_counts_modified_counterexample :
    (modifiedNames sortedEnum [conApp1] [conApp2]).length = 1 ∧
    (compare_containers sortedEnum [conApp1] [conApp2]).added = [] ∧
    (compare_containers sortedEnum [conApp1] [conApp2]).removed = [] ∧
    (compare_containers sortedEnum [conApp1] [conApp2]).modified.length = 2 ∧
    summaryLine 2 ∈ changeLogLines sortedEnum cfgApp1 cfgApp2 "T" ∧
    (2 : Nat) ≠ 0 + 0 + 1 :=
  ⟨by decide, by decide, by decide, by decide, by decide, by decide⟩

/-- C6: the diff factors through the environment variable count.  Replacing
the environment dictionaries of any resources on either side by dictionaries
with the same key counts leaves the whole rendered report unchanged, so no
variable name or value can reach the output; the field comparison splits
into environment-free changes plus the count line; the count line is absent
exactly when the counts agree and otherwise mentions only the two counts;
and two resources differing only in their environments with equal counts
produce no change description at all. -/
theorem environment_privacy
    (E : List String → List String) (old new old' new' : Config) (ts : String)
    (ho : List.Forall₂ EnvEquiv (containersOf old) (containersOf old'))
    (hn : List.Forall₂ EnvEquiv (containersOf new) (containersOf new'))
    (hso : sysOf old = sysOf old') (hsn : sysOf new = sysOf new') :
    generate_change_log E old new ts = generate_change_log E old' new' ts ∧
    (∀ c d : Container, compare_single_container E c d
        = nonEnvChanges E c d ++ envChangeLines c d) ∧
    (∀ c d : Container, envCount c = envCount d → envChangeLines c d = []) ∧
    (∀ c d : Container, ∀ oc nc : Nat, oc = envCount c → nc = envCount d →
        oc ≠ nc →
        envChangeLines c d = [s!"Environment variables: {oc} → {nc}"]) ∧
    (∀ c c' : Container, EnvEquiv c c' →
        compare_single_container E c c' = []) := by
  refine ⟨?_, ?_, ?_, ?_, ?_⟩
  · have hc := compare_containers_envequiv E ho hn
    simp only [generate_change_log, changeLogLines, hc, hso, hsn]
  · intro c d
    rw [compare_single_decomp, nonEnvChanges]
  · intro c d h
    simp [envChangeLines, h]
  · intro c d oc nc hoc hnc h
    subst hoc; subst hnc
    simp [envChangeLines, h]
  · intro c c' h
    exact (compare_single_envequiv E h (envEquiv_refl c')).trans
      (compare_single_refl E c')

/-- Witness for C6: changing an environment variable value (same count)
leaves the report unchanged and a resource pair differing only in the
environment value yields no change description. -/
theorem environment_privacy_witness :
    generate_change_log sortedEnum cfgEnv1 cfgApp2 "T"
      = generate_change_log sortedEnum cfgEnv2 cfgApp2 "T" ∧
    compare_single_container sortedEnum conA conApp2
      = nonEnvChanges sortedEnum conA conApp2 ++ envChangeLines conA conApp2 ∧
    envChangeLines conA conAValt = [] ∧
    compare_single_container sortedEnum conA conAValt = [] := by
  have hEq : EnvEquiv conA conAValt :=
    ⟨rfl, rfl, rfl, rfl, rfl, rfl, rfl⟩
  have hfa : List.Forall₂ EnvEquiv (containersOf cfgEnv1)
      (containersOf cfgEnv2) := List.Forall₂.cons hEq List.Forall₂.nil
  have hfb : List.Forall₂ EnvEquiv (containersOf cfgApp2)
      (containersOf cfgApp2) :=
    List.Forall₂.cons (envEquiv_refl conApp2) List.Forall₂.nil
  have h := environment_privacy sortedEnum cfgEnv1 cfgApp2 cfgEnv2 cfgApp2
    "T" hfa hfb rfl rfl
  exact ⟨h.1, h.2.1 conA conApp2, h.2.2.1 conA conAValt rfl,
    h.2.2.2.2 conA conAValt hEq⟩

/-- C7: loading the previous configuration returns absent when the document
is missing, returns the parsed value when parsing succeeds, and on a parse
failure logs one warning and returns absent; every case yields a value, so
no error propagates. -/
theorem load_previous_fails_soft
    (p : String → Except String Config) (content : Option String) :
    (content = none → get_previous_config p content = (none, [])) ∧
    (∀ s cfg, content = some s → p s = Except.ok cfg →
        get_previous_config p content = (some cfg, [])) ∧
    (∀ s e, content = some s → p s = Except.error e →
        get_previous_config p content
          = (none, [s!"Could not read previous config: {e}"])) := by
  refine ⟨?_, ?_, ?_⟩
  · intro h; rw [h]; rfl
  · intro s cfg hc hp
    rw [hc]
    simp [get_previous_config, hp]
  · intro s e hc hp
    rw [hc]
    simp [get_previous_config, hp]

/-- Witness for C7 covering the three cases at concrete inputs. -/
theorem load_previous_fails_soft_witness :
    get_previous_config parseFail none = (none, []) ∧
    get_previous_config parseOkApp1 (some "doc") = (some cfgApp1, []) ∧
    get_previous_config parseFail (some "doc")
      = (none, ["Could not read previous config: Expecting value"]) :=
  ⟨(load_previous_fails_soft parseFail none).1 rfl,
   (load_previous_fails_soft parseOkApp1 (some "doc")).2.1 "doc" cfgApp1 rfl rfl,
   (load_previous_fails_soft parseFail (some "doc")).2.2 "doc"
     "Expecting value" rfl rfl⟩

/-- C8 amended: every execution of the run driver, baseline or comparison,
performs exactly one file write: it persists the report text it returns to
`changes.log`.  It never writes the snapshot document, but it does write the
report itself, contrary to the claim that it writes nothing. -/
theorem run_driver_writes_exactly_changes_log
    (E : List String → List String) (p : String → Except String Config)
    (content : Option String) (cfg : Config) (ts : String) :
    (create_change_log E p content cfg ts).2
      = [("changes.log", (create_change_log E p content cfg ts).1)] := by
  rcases hc : (get_previous_config p content).1 with _ | old
  · simp [create_change_log, hc]
  · by_cases ht : configTruthy old
    · simp [create_change_log, hc, ht]
    · simp [create_change_log, hc, ht]

set_option maxRecDepth 8000 in
/-- C8 counterexample: on both the baseline path and the comparison path the
run driver's write list is non-empty — it writes the rendered report to
`changes.log` itself. -/
theorem run_driver_writes_counterexample :
    (create_change_log sortedEnum parseFail none cfgApp2 "T").2 ≠ [] ∧
    (create_change_log sortedEnum parseOkApp1 (some "doc") cfgApp2 "T").2 ≠ [] ∧
    (create_change_log sortedEnum parseFail none cfgApp2 "T").2
      = [("changes.log", baselineReport cfgApp2 "T")] ∧
    (create_change_log sortedEnum parseOkApp1 (some "doc") cfgApp2 "T").2
      = [("changes.log", generate_change_log sortedEnum cfgApp1 cfgApp2 "T")] :=
  ⟨by decide, by decide, by decide, by decide⟩

/-- C9: the change descriptions of a modified resource appear in the fixed
field order image, status, restart policy, then the ports set differences,
the volumes set differences and the environment count change; in particular
when both the image and the status change, the image line is emitted
immediately before the status line. -/
theorem field_comparison_fixed_order
    (E : List String → List String) (c d : Container) :
    compare_single_container E c d
      = imageChangeLines c d ++ statusChangeLines c d ++
        restartChangeLines c d ++ portsChangeLines E c d ++
        volumesChangeLines E c d ++ envChangeLines c d ∧
    (c.image.getD "N/A" ≠ d.image.getD "N/A" →
     c.status.getD "N/A" ≠ d.status.getD "N/A" →
     (compare_single_container E c d).take 2
       = imageChangeLines c d ++ statusChangeLines c d) := by
  refine ⟨compare_single_decomp E c d, fun h1 h2 => ?_⟩
  rw [compare_single_decomp]
  simp only [imageChangeLines, statusChangeLines, if_pos h1, if_pos h2]
  rfl

/-- Witness for C9: a resource changing both image and status emits the
image line first and the status line second. -/
theorem field_comparison_fixed_order_witness :
    compare_single_container sortedEnum conApp1 conApp3
      = imageChangeLines conApp1 conApp3 ++ statusChangeLines conApp1 conApp3 ++
        restartChangeLines conApp1 conApp3 ++
        portsChangeLines sortedEnum conApp1 conApp3 ++
        volumesChangeLines sortedEnum conApp1 conApp3 ++
        envChangeLines conApp1 conApp3 ∧
    (compare_single_container sortedEnum conApp1 conApp3).take 2
      = ["Image: a:1 → a:2", "Status: running → exited"] :=
  ⟨(field_comparison_fixed_order sortedEnum conApp1 conApp3).1,
   (field_comparison_fixed_order sortedEnum conApp1 conApp3).2
     (by decide) (by decide)⟩

lemma keysOf_filter_ne (pre : List Container) (k : String) :
    keysOf (pre.filter (fun e => decide (keyOf e ≠ k)))
      = (keysOf pre).filter (fun x => decide (x ≠ k)) := by
  induction pre with
  | nil => rfl
  | cons a t ih =>
    by_cases h : keyOf a = k
    · simp only [keysOf, List.map_cons] at ih ⊢
      rw [List.filter_cons_of_neg (by simp [h]),
        List.filter_cons_of_neg (by simp [h])]
      exact ih
    · simp only [keysOf, List.map_cons] at ih ⊢
      rw [List.filter_cons_of_pos (by simp [h]), List.map_cons,
        List.filter_cons_of_pos (by simp [h]), ih]

lemma dedup_append_filter (k : String) (ks' : List String) :
    ∀ ks : List String,
      (ks.filter (fun x => decide (x ≠ k)) ++ k :: ks').dedup
        = (ks ++ k :: ks').dedup := by
  intro ks
  induction ks with
  | nil => rfl
  | cons a t ih =>
    by_cases hak : a = k
    · subst hak
      rw [List.filter_cons_of_neg (by simp), List.cons_append,
        List.dedup_cons_of_mem (by simp)]
      exact ih
    · rw [List.filter_cons_of_pos (by simp [hak]), List.cons_append,
        List.cons_append]
      by_cases ham : a ∈ t ++ k :: ks'
      · have ham' : a ∈ t.filter (fun x => decide (x ≠ k)) ++ k :: ks' := by
          rcases List.mem_append.mp ham with h | h
          · exact List.mem_append.mpr
              (Or.inl (List.mem_filter.mpr ⟨h, by simp [hak]⟩))
          · exact List.mem_append.mpr (Or.inr h)
        rw [List.dedup_cons_of_mem ham', List.dedup_cons_of_mem ham, ih]
      · have ham' : ¬ a ∈ t.filter (fun x => decide (x ≠ k)) ++ k :: ks' := by
          intro hc
          rcases List.mem_append.mp hc with h | h
          · exact ham (List.mem_append.mpr (Or.inl (List.mem_filter.mp h).1))
          · exact ham (List.mem_append.mpr (Or.inr h))
        rw [List.dedup_cons_of_not_mem ham', List.dedup_cons_of_not_mem ham,
          ih]

lemma keysOf_dedup_dropEarlier (pre post : List Container) (c : Container) :
    (keysOf (pre.filter (fun e => decide (keyOf e ≠ keyOf c))
        ++ c :: post)).dedup
      = (keysOf (pre ++ c :: post)).dedup := by
  simp only [keysOf, List.map_append, List.map_cons]
  rw [show List.map keyOf (pre.filter (fun e => decide (keyOf e ≠ keyOf c)))
      = (List.map keyOf pre).filter (fun x => decide (x ≠ keyOf c)) from
    keysOf_filter_ne pre (keyOf c)]
  exact dedup_append_filter (keyOf c) (List.map keyOf post) (List.map keyOf pre)

lemma keys_mem_dropEarlier {pre post : List Container} {c : Container}
    (n : String) :
    n ∈ keysOf (pre ++ c :: post)
      ↔ n ∈ keysOf (pre.filter (fun e => decide (keyOf e ≠ keyOf c))
          ++ c :: post) := by
  simp only [keysOf, List.map_append, List.map_cons, List.mem_append,
    List.mem_cons, List.mem_map, List.mem_filter, decide_eq_true_eq]
  constructor
  · rintro (⟨e, he, hk⟩ | h)
    · by_cases hec : keyOf e = keyOf c
      · right; left; rw [← hk, hec]
      · exact Or.inl ⟨e, ⟨he, hec⟩, hk⟩
    · exact Or.inr h
  · rintro (⟨e, ⟨he, _⟩, hk⟩ | h)
    · exact Or.inl ⟨e, he, hk⟩
    · exact Or.inr h

lemma buildByName_dropEarlier (pre post : List Container) (c : Container)
    (n : String) :
    buildByName (pre ++ c :: post) n
      = buildByName (pre.filter (fun e => decide (keyOf e ≠ keyOf c))
          ++ c :: post) n := by
  rw [buildByName_eq_getLast, buildByName_eq_getLast,
    List.filter_append, List.filter_append]
  by_cases hn : n = keyOf c
  · have hpos : (c :: post).filter (fun e => decide (keyOf e = n))
        = c :: post.filter (fun e => decide (keyOf e = n)) :=
      List.filter_cons_of_pos (by simp [hn])
    rw [hpos, List.getLast?_append_of_ne_nil _ (by simp),
      List.getLast?_append_of_ne_nil _ (by simp)]
  · have hfil : (pre.filter (fun e => decide (keyOf e ≠ keyOf c))).filter
          (fun e => decide (keyOf e = n))
        = pre.filter (fun e => decide (keyOf e = n)) := by
      rw [List.filter_filter]
      refine List.filter_congr fun e _ => ?_
      by_cases hk : keyOf e = n
      · simp [hk, hn]
      · simp [hk]
    rw [hfil]

/-- C10: the name-keyed dictionary lookup keeps the last record with a given
key, and removing from a resource list every record that an identically
named later record overwrites does not change the diff at all — earlier
duplicates have no effect, whether they occur on the previous or on the
current side. -/
theorem duplicate_names_last_write_wins
    (E : List String → List String) (hE : Admissible E) :
    (∀ (cs : List Container) (n : String),
        buildByName cs n
          = (cs.filter (fun e => decide (keyOf e = n))).getLast?) ∧
    (∀ (old pre post : List Container) (c : Container),
        compare_containers E old (pre ++ c :: post)
          = compare_containers E old
              (pre.filter (fun e => decide (keyOf e ≠ keyOf c)) ++ c :: post)) ∧
    (∀ (new pre post : List Container) (c : Container),
        compare_containers E (pre ++ c :: post) new
          = compare_containers E
              (pre.filter (fun e => decide (keyOf e ≠ keyOf c)) ++ c :: post)
              new) := by
  refine ⟨buildByName_eq_getLast, ?_, ?_⟩
  · intro old pre post c
    refine compare_containers_congr_of_eq ?_ ?_ ?_ (fun m => rfl)
      (fun m => buildByName_dropEarlier pre post c m)
    · rw [addedKeyElems, addedKeyElems, keysOf_dedup_dropEarlier]
    · refine List.filter_congr fun a _ => ?_
      exact decide_eq_decide.mpr (not_congr (keys_mem_dropEarlier a))
    · refine List.filter_congr fun a _ => ?_
      exact decide_eq_decide.mpr (keys_mem_dropEarlier a)
  · intro new pre post c
    refine compare_containers_congr_of_eq ?_ ?_ ?_
      (fun m => buildByName_dropEarlier pre post c m) (fun m => rfl)
    · refine List.filter_congr fun a _ => ?_
      exact decide_eq_decide.mpr (not_congr (keys_mem_dropEarlier a))
    · rw [removedKeyElems, removedKeyElems, keysOf_dedup_dropEarlier]
    · rw [sharedKeyElems, sharedKeyElems, keysOf_dedup_dropEarlier]

/-- Witness for C10: the lookup on a list holding two records named `app`
returns the last one, and dropping the earlier duplicate does not change
the diff. -/
theorem duplicate_names_last_write_wins_witness :
    buildByName [conApp1, conApp2] "app"
      = ([conApp1, conApp2].filter (fun e => decide (keyOf e = "app"))).getLast? ∧
    compare_containers sortedEnum [conA] ([conApp1] ++ conApp2 :: [])
      = compare_containers sortedEnum [conA]
          ([conApp1].filter (fun e => decide (keyOf e ≠ keyOf conApp2))
            ++ conApp2 :: []) :=
  ⟨(duplicate_names_last_write_wins sortedEnum sortedEnum_admissible).1
     [conApp1, conApp2] "app",
   (duplicate_names_last_write_wins sortedEnum sortedEnum_admissible).2.1
     [conA] [conApp1] [] conApp2⟩

end ConfigDiff
